import Mathlib

/-!
# Verification of the Yad2 monitor ingestion engine

A shallow embedding, in Lean 4, of the parts of the `ourhand` repository that
the specification's testable properties talk about:

* the listing state store (`src/database.py`: `upsert_apartment`,
  `batch_upsert_apartments`, `mark_apartments_inactive`),
* the adaptive pacing controller (`src/app.py`: `AdaptiveDelayManager`),
* the proxy health pool (`src/proxy_manager.py`: `ProxyManager`),
* the incremental "smart-stop" monitoring loop (`src/app.py`:
  `scrape_all_pages`) and the bulk-backfill flush logic (`src/app.py`:
  `scrape_full_site`, `process_apartments_batch`).

Modelling conventions:

* The SQLite tables are modelled as association lists keyed by the listing's
  external id; `price_history` is an append-only list of `(id, price)` pairs.
* Python's `None`-able integer prices become `Option Int`; Python truthiness
  of a price (`if apt.get('price')`) is `priceTruthy` below (false for `None`
  and for `0`).
* Python `float` arithmetic in the delay manager is modelled over `ℚ`; the
  decimal literals of the source (0.3, 1.5, ...) are exact rationals here.
* Wall-clock times are integers (seconds for the event log, minutes for proxy
  cooldowns), passed explicitly where the source calls `datetime.now()`.
* `random.choice` / `random.choices` with everywhere-positive weights are
  modelled by an arbitrary index argument `rnd`: the set of possible results
  (the support) is what the spec's claims quantify over.
-/

namespace Yad2

/-! ## Association-list primitives shared by the store models -/

/-- First-match lookup in an association list (the model of a keyed SQL row
or a Python dict entry). -/
def lookupEntry {β : Type} : List (String × β) → String → Option β
  | [], _ => none
  | (k, v) :: rest, key => if k = key then some v else lookupEntry rest key

/-- Replace the first binding of `key` (or append one): the model of an SQL
`INSERT ... ON CONFLICT(id) DO UPDATE` and of a Python dict assignment. -/
def setEntry {β : Type} : List (String × β) → String → β → List (String × β)
  | [], key, v => [(key, v)]
  | (k, w) :: rest, key, v =>
      if k = key then (key, v) :: rest else (k, w) :: setEntry rest key v

/-- Delete every binding of `key`: the model of Python `del d[key]`. -/
def removeEntry {β : Type} (l : List (String × β)) (key : String) :
    List (String × β) :=
  l.filter (fun p => p.1 ≠ key)

/-! ## Listing state store (`src/database.py`) -/

/-- A candidate record handed to the store (the Python `apt` dict built by
`parse_apartment`).  Only the fields the verified properties observe are
kept; `price` is nullable exactly as in the source. -/
structure AptRecord where
  id : String
  title : String
  price : Option Int
  link : String
  deriving Repr, DecidableEq

/-- A stored `apartments` row (the columns the verified properties observe).
`lastSeen` is the `last_seen` column, written from `datetime.now()`. -/
structure StoredApt where
  title : String
  price : Option Int
  lastSeen : Nat
  isActive : Bool
  deriving Repr, DecidableEq

/-- The listing state store: the `apartments` table keyed by external id and
the append-only `price_history` table. -/
structure Database where
  apartments : List (String × StoredApt)
  priceHistory : List (String × Int)
  deriving Repr, DecidableEq

def emptyDatabase : Database := { apartments := [], priceHistory := [] }

/-- Python truthiness of a nullable price: `None` and `0` are falsy.  This is
the guard `if apt.get('price')` of `upsert_apartment` and the guard
`if new_price` of `batch_upsert_apartments`. -/
def priceTruthy : Option Int → Bool
  | none => false
  | some p => decide (p ≠ 0)

/-- `Database.upsert_apartment` (src/database.py lines 671-728): read the
existing row, write the new attributes with `is_active = 1` and a fresh
`last_seen`, and append a `price_history` entry iff the row is new or its
price differs from the previous read — and the new price is truthy.
Returns `(database, (apt_id, is_new))`. -/
def upsert_apartment (db : Database) (apt : AptRecord) (now : Nat) :
    Database × String × Bool :=
  let existing := lookupEntry db.apartments apt.id
  let is_new := existing.isNone
  let price_changed :=
    match existing with
    | some e => decide (e.price ≠ apt.price)
    | none => false
  let stored : StoredApt :=
    { title := apt.title, price := apt.price, lastSeen := now, isActive := true }
  let hist :=
    if (is_new || price_changed) && priceTruthy apt.price then
      db.priceHistory ++ [(apt.id, apt.price.getD 0)]
    else
      db.priceHistory
  ({ apartments := setEntry db.apartments apt.id stored, priceHistory := hist },
    apt.id, is_new)

/-- Number of `price_history` rows recorded for a given listing id. -/
def historyCountFor (db : Database) (id : String) : Nat :=
  (db.priceHistory.filter (fun e => e.1 = id)).length

/-- The id order produced by Python's `seen_ids` dict in
`batch_upsert_apartments`: first-occurrence order, one entry per id. -/
def uniqueIds : List AptRecord → List String
  | [] => []
  | a :: rest => a.id :: (uniqueIds rest).filter (fun k => k ≠ a.id)

/-- The value kept by `seen_ids[apt['id']] = apt`: the last occurrence of the
id in the input list wins. -/
def lastRecordFor : List AptRecord → String → Option AptRecord
  | [], _ => none
  | a :: rest, id =>
      match lastRecordFor rest id with
      | some r => some r
      | none => if a.id = id then some a else none

/-- The deduplication step of `batch_upsert_apartments` (src/database.py
lines 735-739): one record per id, last occurrence wins, ids in
first-occurrence order. -/
def dedupById (l : List AptRecord) : List AptRecord :=
  (uniqueIds l).filterMap (lastRecordFor l)

/-- `range(0, len, batch_size)` slicing into chunks of 500 records. -/
def chunkList : List AptRecord → List (List AptRecord)
  | [] => []
  | a :: rest => (a :: rest.take 499) :: chunkList (rest.drop 499)
termination_by l => l.length
decreasing_by simp; omega

/-- The previous-price prefetch of `batch_upsert_apartments`
(`existing_prices.get(apt_id)`): `none` both when the row is absent and when
its stored price is NULL, exactly like the Python `dict.get`. -/
def batchOldPrice (apts : List (String × StoredApt)) (id : String) :
    Option Int :=
  match lookupEntry apts id with
  | none => none
  | some e => e.price

/-- One 500-record batch of `batch_upsert_apartments` (src/database.py lines
751-819): prefetch old prices, compute the price-history rows to add, then
write every record with `is_active = 1` and append the history rows. -/
def applyChunk (db : Database) (now : Nat) (batch : List AptRecord) :
    Database :=
  let hist := batch.filterMap (fun apt =>
    match apt.price with
    | some p =>
        if p ≠ 0 ∧ batchOldPrice db.apartments apt.id ≠ some p then
          some (apt.id, p)
        else none
    | none => none)
  { apartments := batch.foldl (fun acc apt =>
      setEntry acc apt.id
        { title := apt.title, price := apt.price, lastSeen := now,
          isActive := true }) db.apartments,
    priceHistory := db.priceHistory ++ hist }

/-- `Database.batch_upsert_apartments` (src/database.py lines 730-823):
deduplicate by id (last occurrence wins), then upsert chunk by chunk with a
shared `now`, recording a price-history row for each truthy new price that
is absent or different in the prefetched old prices.  Returns the processed
count. -/
def batch_upsert_apartments (db : Database) (apartments : List AptRecord)
    (now : Nat) : Database × Nat :=
  let uniq := dedupById apartments
  ((chunkList uniq).foldl (fun acc batch => applyChunk acc now batch) db,
    uniq.length)

/-- `Database.mark_apartments_inactive` (src/database.py lines 896-913):
collect the ids of currently-active rows, flip `is_active` to 0 on those not
in `activeIds`, and return the flipped ids. -/
def mark_apartments_inactive (db : Database) (activeIds : List String) :
    Database × List String :=
  let allActive := (db.apartments.filter (fun p => p.2.isActive)).map
    (fun p => p.1)
  let toDeactivate := allActive.filter (fun id => decide (id ∉ activeIds))
  ({ db with
      apartments := db.apartments.map (fun p =>
        if p.1 ∈ toDeactivate then
          (p.1, { p.2 with isActive := false })
        else p) },
    toDeactivate)

/-- `MIN_RESULTS_FOR_REMOVAL` (src/constants.py line 20). -/
def MIN_RESULTS_FOR_REMOVAL : Nat := 1000

/-- The reconciliation guard of `process_apartments` (src/app.py lines
800-806): deactivation runs only when the run observed at least
`MIN_RESULTS_FOR_REMOVAL` listings; below the floor it is skipped and the
removal set is empty. -/
def reconcileRemovals (db : Database) (apartments : List AptRecord) :
    Database × List String :=
  if apartments.length ≥ MIN_RESULTS_FOR_REMOVAL then
    mark_apartments_inactive db (apartments.map (fun a => a.id))
  else
    (db, [])

/-- A sequence of `upsert_apartment` calls, each with its own clock reading. -/
def runUpserts (db : Database) : List (AptRecord × Nat) → Database
  | [] => db
  | (r, t) :: rest => runUpserts (upsert_apartment db r t).1 rest

/-- Number of entries in a price trace that differ from the immediately
preceding price (the spec's "upserts whose price differs from the
immediately preceding stored price"). -/
def countChanges : Option Int → List (Option Int) → Nat
  | _, [] => 0
  | prev, p :: rest => (if p ≠ prev then 1 else 0) + countChanges p rest

/-- The spec's predicted history count for a fresh listing: 1 for creation
plus the number of price changes along the sequence. -/
def specHistoryCount : List (Option Int) → Nat
  | [] => 0
  | p :: rest => 1 + countChanges p rest

/-! ## Adaptive pacing controller (`src/app.py`, `AdaptiveDelayManager`) -/

/-- The event strings recorded through `log_event` (src/app.py): "success",
"block", "rate_limit", "error", "timeout". -/
inductive EventType where
  | success
  | block
  | rate_limit
  | error
  | timeout
  deriving Repr, DecidableEq

/-- A `scrape_logs` row: timestamp (seconds) and event type. -/
structure ScrapeLog where
  time : Int
  eventType : EventType
  deriving Repr, DecidableEq

/-- The persisted state the delay manager reads and writes: the `scrape_logs`
table and the `delay_multiplier` setting (a Python float, modelled in ℚ). -/
structure DelayState where
  multiplier : ℚ
  logs : List ScrapeLog
  deriving Repr, DecidableEq

/-- The rows `get_scrape_stats(hours=24)` returns: events whose `created_at`
lies within the trailing 24 hours of `now`. -/
def windowLogs (logs : List ScrapeLog) (now : Int) : List ScrapeLog :=
  logs.filter (fun l => decide (l.time > now - 86400))

/-- Count of one event type in the trailing-24h window. -/
def countEvents (logs : List ScrapeLog) (now : Int) (t : EventType) : Nat :=
  ((windowLogs logs now).filter (fun l => l.eventType = t)).length

/-- `total = sum(stats.values())`: every logged row belongs to exactly one
`event_type` group, so the sum of the per-type counts is the window size. -/
def totalEvents (logs : List ScrapeLog) (now : Int) : Nat :=
  (windowLogs logs now).length

/-- `AdaptiveDelayManager.analyze_and_adapt` (src/app.py lines 130-158):
below 5 samples no adjustment; otherwise the multiplicative, clamped update
driven by the problem and success rates of the trailing-24h window. -/
def analyze_and_adapt (st : DelayState) (now : Int) : DelayState :=
  let total := totalEvents st.logs now
  if total < 5 then st
  else
    let successes := countEvents st.logs now .success
    let blocks := countEvents st.logs now .block
    let rate_limits := countEvents st.logs now .rate_limit
    let success_rate : ℚ := (successes : ℚ) / (total : ℚ)
    let problem_rate : ℚ := ((blocks : ℚ) + (rate_limits : ℚ)) / (total : ℚ)
    let m := st.multiplier
    let m' :=
      if problem_rate > 3/10 then min 5 (m * (3/2))
      else if problem_rate > 1/10 then min 3 (m * (6/5))
      else if problem_rate < 1/20 ∧ success_rate > 9/10 then
        max (1/2) (m * (9/10))
      else m
    { st with multiplier := m' }

/-- `AdaptiveDelayManager.log_event` (src/app.py lines 122-128): append the
outcome sample to `scrape_logs`, then recompute the multiplier — but only
when the event type is `rate_limit` or `block`. -/
def log_event (st : DelayState) (t : EventType) (now : Int) : DelayState :=
  let st' : DelayState := { st with logs := st.logs ++ [⟨now, t⟩] }
  if t = .rate_limit ∨ t = .block then analyze_and_adapt st' now else st'

/-- Feed a sequence of outcomes (each with its clock reading) through
`log_event`. -/
def runEvents (st : DelayState) : List (EventType × Int) → DelayState
  | [] => st
  | (t, now) :: rest => runEvents (log_event st t now) rest

/-- Following the spec's words (§4.2): the claimed multiplier update rule as
a pure function of the old multiplier and the two window rates, to be
compared with what `log_event` computes. -/
def specMultiplierUpdate (m problemRate successRate : ℚ) : ℚ :=
  if problemRate > 3/10 then min 5 (m * (3/2))
  else if problemRate > 1/10 then min 3 (m * (6/5))
  else if problemRate < 1/20 ∧ successRate > 9/10 then max (1/2) (m * (9/10))
  else m

/-! ## Proxy health pool (`src/proxy_manager.py`, `ProxyManager`)

Routes are identified by their `host:port` key string (`get_proxy_key`);
times are integer minutes.  The response-time average is kept in ℚ. -/

/-- One `proxy_stats` entry (the defaultdict value in `ProxyManager`). -/
structure ProxyStats where
  success : Nat
  fail : Nat
  consecutiveFails : Nat
  lastUsed : Option Int
  lastSuccess : Option Int
  avgResponseTime : ℚ
  deriving Repr, DecidableEq

def defaultProxyStats : ProxyStats :=
  { success := 0, fail := 0, consecutiveFails := 0, lastUsed := none,
    lastSuccess := none, avgResponseTime := 0 }

/-- The mutable state of `ProxyManager`: the configured routes (by key), the
per-route stats, the cooldown map (`cooldown_proxies`, key ↦ cooldown-until
minute), and the round-robin cursor. -/
structure PMState where
  proxies : List String
  stats : List (String × ProxyStats)
  cooldown : List (String × Int)
  currentIndex : Nat
  deriving Repr, DecidableEq

/-- `self.proxy_stats[key]` through the defaultdict. -/
def statsFor (st : PMState) (key : String) : ProxyStats :=
  (lookupEntry st.stats key).getD defaultProxyStats

/-- `ProxyManager.report_success` (src/proxy_manager.py lines 223-241):
bump the success count, reset `consecutive_fails` to 0, refresh the average
response time, and delete the route from the cooldown map. -/
def report_success (st : PMState) (key : String) (now : Int)
    (responseTime : ℚ) : PMState :=
  let s := statsFor st key
  let s' : ProxyStats :=
    { s with
      success := s.success + 1
      lastUsed := some now
      lastSuccess := some now
      consecutiveFails := 0 }
  let total : ℚ := ((s'.success + s'.fail : Nat) : ℚ)
  let s'' : ProxyStats :=
    { s' with avgResponseTime :=
        (s'.avgResponseTime * (total - 1) + responseTime) / total }
  { st with
    stats := setEntry st.stats key s''
    cooldown := removeEntry st.cooldown key }

/-- `ProxyManager.report_failure` (src/proxy_manager.py lines 243-256):
bump the failure count, increment `consecutive_fails`, then put the route in
cooldown for `min(5 * consecutive_fails, 60)` minutes from now. -/
def report_failure (st : PMState) (key : String) (now : Int) : PMState :=
  let s := statsFor st key
  let s' : ProxyStats :=
    { s with
      fail := s.fail + 1
      lastUsed := some now
      consecutiveFails := s.consecutiveFails + 1 }
  let cooldownMinutes : Nat := min (5 * s'.consecutiveFails) 60
  { st with
    stats := setEntry st.stats key s'
    cooldown := setEntry st.cooldown key (now + (cooldownMinutes : Int)) }

/-- `k` consecutive `report_failure` calls on the same route. -/
def iterFailures (key : String) (now : Int) : Nat → PMState → PMState
  | 0, st => st
  | k + 1, st => iterFailures key now k (report_failure st key now)

/-- A route is currently in cooldown when its `cooldown_proxies` entry lies
in the future. -/
def inCooldown (st : PMState) (now : Int) (key : String) : Bool :=
  match lookupEntry st.cooldown key with
  | some t => decide (t > now)
  | none => false

/-- The cooldown-expiry cleanup both selectors perform first: keep only
entries with `v > now`. -/
def cleanCooldown (cd : List (String × Int)) (now : Int) :
    List (String × Int) :=
  cd.filter (fun p => decide (p.2 > now))

/-- The round-robin scan of `ProxyManager.get_next_proxy` (src/proxy_manager.py
lines 155-175): up to `len(proxies)` attempts; skip routes in cooldown; a
route with 5+ consecutive fails is put in a 30-minute cooldown and skipped;
otherwise return the route.  Returns the selected route (if any), the new
cursor, and the updated cooldown map. -/
def nextProxyLoop (proxies : List String) (stats : List (String × ProxyStats))
    (now : Int) : Nat → Nat → List (String × Int) →
    Option String × Nat × List (String × Int)
  | _, 0, cd => (none, 0, cd)
  | idx, n + 1, cd =>
      let proxy := proxies.getD idx ""
      let idx' := (idx + 1) % proxies.length
      if (lookupEntry cd proxy).isSome then
        nextProxyLoop proxies stats now idx' n cd
      else if ((lookupEntry stats proxy).getD defaultProxyStats).consecutiveFails ≥ 5 then
        nextProxyLoop proxies stats now idx' n (setEntry cd proxy (now + 30))
      else
        (some proxy, idx', cd)

/-- Fix the cursor returned on exhaustion: the Python loop leaves
`current_proxy_index` where its last step put it.  (The cursor value on the
`(none, ...)` path is not observed by any claim; we return the advanced
cursor computed by the recursion, with `0` from an empty attempt budget.) -/
def get_next_proxy (st : PMState) (now : Int) (rnd : Nat) :
    Option String × PMState :=
  if st.proxies.isEmpty then (none, st)
  else
    let cd := cleanCooldown st.cooldown now
    match nextProxyLoop st.proxies st.stats now st.currentIndex
        st.proxies.length cd with
    | (some p, idx', cd') =>
        (some p, { st with currentIndex := idx', cooldown := cd' })
    | (none, _, cd') =>
        -- all proxies disqualified: `return random.choice(self.proxies)`
        (some (st.proxies.getD (rnd % st.proxies.length) ""),
          { st with currentIndex := (st.currentIndex + st.proxies.length)
              % st.proxies.length, cooldown := cd' })

/-- `ProxyManager.get_random_proxy` (src/proxy_manager.py lines 180-213):
clean expired cooldowns, restrict to non-cooled routes (falling back to all
routes when none qualify), and draw one.  Every weight is at least 0.1, so
the draw's support is the whole candidate list; the draw is modelled by the
index `rnd`. -/
def get_random_proxy (st : PMState) (now : Int) (rnd : Nat) :
    Option String × PMState :=
  if st.proxies.isEmpty then (none, st)
  else
    let cd := cleanCooldown st.cooldown now
    let avail := st.proxies.filter (fun p => (lookupEntry cd p).isNone)
    let candidates := if avail.isEmpty then st.proxies else avail
    (some (candidates.getD (rnd % candidates.length) ""),
      { st with cooldown := cd })

/-! ## Incremental monitoring with smart-stop (`src/app.py`, `scrape_all_pages`)

A fetched page is modelled as the list of its `h2` listing elements, each of
which either parses to a record that passes the `apt['price'] and apt['link']`
filter (`some record`) or is rejected (`none`).  An empty list models a page
with no listing elements at all, on which the loop breaks. -/

/-- `CONSECUTIVE_KNOWN_THRESHOLD` (src/constants.py line 18). -/
def CONSECUTIVE_KNOWN_THRESHOLD : Nat := 50

/-- The inner per-listing loop of `scrape_all_pages` (src/app.py lines
693-717): append each valid listing to the accumulator, then increment the
consecutive-known counter if the listing is already in the database (and
return at once when it reaches the threshold) or reset the counter to 0 on a
not-yet-known listing.  Returns the accumulator, the counter, and whether
the smart stop fired. -/
def scrapeListings (db : Database) :
    List (Option AptRecord) → Nat → List AptRecord →
    List AptRecord × Nat × Bool
  | [], k, acc => (acc, k, false)
  | none :: rest, k, acc => scrapeListings db rest k acc
  | some apt :: rest, k, acc =>
      let acc' := acc ++ [apt]
      if (lookupEntry db.apartments apt.id).isSome then
        if k + 1 ≥ CONSECUTIVE_KNOWN_THRESHOLD then (acc', k + 1, true)
        else scrapeListings db rest (k + 1) acc'
      else scrapeListings db rest 0 acc'

/-- The page loop of `scrape_all_pages` (src/app.py lines 676-730): walk the
pages in order while `page <= max_pages`, break on a page with no listing
elements, carry the consecutive-known counter across page boundaries, and
return as soon as the smart stop fires.  The result is the `all_apartments`
list the run observed. -/
def scrape_all_pages (db : Database) :
    List (List (Option AptRecord)) → Nat → Nat → List AptRecord →
    List AptRecord
  | _, 0, _, acc => acc
  | [], _ + 1, _, acc => acc
  | pg :: rest, fuel + 1, k, acc =>
      if pg.isEmpty then acc
      else
        match scrapeListings db pg k acc with
        | (acc', _, true) => acc'
        | (acc', k', false) => scrape_all_pages db rest fuel k' acc'

/-- The per-item smart-stop recursion on the known/unknown flags alone:
`(observed count, final counter, stopped?)` for one flattened stream of
valid listings. -/
def observeFlags : List Bool → Nat → Nat × Nat × Bool
  | [], k => (0, k, false)
  | b :: rest, k =>
      if b then
        if k + 1 ≥ CONSECUTIVE_KNOWN_THRESHOLD then (1, k + 1, true)
        else
          let r := observeFlags rest (k + 1)
          (r.1 + 1, r.2)
      else
        let r := observeFlags rest 0
        (r.1 + 1, r.2)

/-- The known/unknown flags of a page's valid listings against a database. -/
def pageFlags (db : Database) (pg : List (Option AptRecord)) : List Bool :=
  (pg.filterMap id).map (fun apt => (lookupEntry db.apartments apt.id).isSome)

/-! ## Bulk-backfill flush behaviour (`src/app.py`)

Persistence faults are modelled by an explicit fault profile: whether the
bulk write raises (`PersistenceFailure` on `batch_upsert_apartments`) and
which individual `upsert_apartment` calls raise. -/

/-- Which storage operations raise, for one flush. -/
structure FaultSpec where
  bulkFails : Bool
  singleFails : String → Bool

/-- `Yad2Monitor.process_apartments_batch` (src/app.py lines 732-763): try
one bulk upsert; on failure, fall back to saving each record individually
once, skipping (and only losing) the records whose individual save raises.
Returns the store and the saved count. -/
def process_apartments_batch (f : FaultSpec) (db : Database)
    (apartments : List AptRecord) (now : Nat) : Database × Nat :=
  if apartments.isEmpty then (db, 0)
  else if ¬ f.bulkFails then
    batch_upsert_apartments db apartments now
  else
    apartments.foldl (fun acc apt =>
      if f.singleFails apt.id then acc
      else ((upsert_apartment acc.1 apt now).1, acc.2 + 1)) (db, 0)

/-- `SAVE_THRESHOLD` of `scrape_full_site` (src/app.py line 586). -/
def SAVE_THRESHOLD : Nat := 1000

/-- The periodic-save step of `scrape_full_site` (src/app.py lines 618-627):
once the pending buffer holds `SAVE_THRESHOLD` records, try one bulk upsert;
on success clear the buffer, on failure log and keep the buffer.  There is
no per-record fallback on this path. -/
def scrapeFullSitePeriodicSave (f : FaultSpec) (db : Database)
    (pending : List AptRecord) (now : Nat) : Database × List AptRecord :=
  if pending.length ≥ SAVE_THRESHOLD then
    if f.bulkFails then (db, pending)
    else ((batch_upsert_apartments db pending now).1, [])
  else (db, pending)

/-- The final-save step of `scrape_full_site` (src/app.py lines 640-647):
try one bulk upsert of the remaining buffer; on failure log and move on —
the records are dropped without any per-record fallback. -/
def scrapeFullSiteFinalSave (f : FaultSpec) (db : Database)
    (pending : List AptRecord) (now : Nat) : Database :=
  if pending.isEmpty then db
  else if f.bulkFails then db
  else (batch_upsert_apartments db pending now).1

/-! ## Concrete sample values used by witnesses and counterexamples -/

/-- A record with a truthy price. -/
def aptA : AptRecord := { id := "a", title := "A", price := some 100, link := "la" }

/-- A second record with a truthy price. -/
def aptB : AptRecord := { id := "b", title := "B", price := some 200, link := "lb" }

/-- A record whose price is absent (`None` in the source). -/
def aptNoPrice : AptRecord := { id := "n", title := "N", price := none, link := "ln" }

/-- `aptA` after a price change. -/
def aptA150 : AptRecord := { id := "a", title := "A", price := some 150, link := "la" }

/-- A store where listing "a" was flipped inactive by an earlier
reconciliation. -/
def inactiveDb : Database :=
  { apartments := [("a", { title := "old", price := some 50, lastSeen := 0, isActive := false })],
    priceHistory := [("a", 50)] }

/-- A store that already knows `aptA`. -/
def dbKnowsA : Database :=
  { apartments := [("a", { title := "A", price := some 100, lastSeen := 0, isActive := true })],
    priceHistory := [("a", 100)] }

/-- A fault profile where the bulk write raises and every individual write
succeeds. -/
def allBulkFail : FaultSpec := { bulkFails := true, singleFails := fun _ => false }

/-- A pool with a single route that is in cooldown until minute 100. -/
def cooledPool : PMState :=
  { proxies := ["p1"], stats := [], cooldown := [("p1", 100)], currentIndex := 0 }

/-- A pool with a cooled first route and a healthy second route. -/
def mixedPool : PMState :=
  { proxies := ["p1", "p2"], stats := [], cooldown := [("p1", 100)], currentIndex := 0 }

/-- A simulated source for the smart-stop scenario: one new listing, then 50
(= threshold) already-known listings, spread over two pages. -/
def wPages : List (List (Option AptRecord)) :=
  [[some aptB], List.replicate 50 (some aptA)]

/-- A delay-manager state with four successes already logged. -/
def fourSuccessState : DelayState :=
  { multiplier := 1,
    logs := [⟨0, .success⟩, ⟨0, .success⟩, ⟨0, .success⟩, ⟨0, .success⟩] }

/-! ## Association-list lemmas -/

theorem lookupEntry_setEntry_self {β : Type} (l : List (String × β))
    (key : String) (v : β) : lookupEntry (setEntry l key v) key = some v := by
  induction l with
  | nil => simp [setEntry, lookupEntry]
  | cons p rest ih =>
      obtain ⟨k, w⟩ := p
      by_cases h : k = key
      · simp [setEntry, lookupEntry, h]
      · simp [setEntry, lookupEntry, h, ih]

theorem lookupEntry_setEntry_ne {β : Type} (l : List (String × β))
    (key j : String) (v : β) (h : j ≠ key) :
    lookupEntry (setEntry l key v) j = lookupEntry l j := by
  have hkj : key ≠ j := fun hk => h hk.symm
  induction l with
  | nil => simp [setEntry, lookupEntry, hkj]
  | cons p rest ih =>
      obtain ⟨k, w⟩ := p
      by_cases hk : k = key
      · subst hk
        simp [setEntry, lookupEntry, hkj]
      · simp only [setEntry, if_neg hk]
        by_cases hj : k = j
        · simp [lookupEntry, hj]
        · simp [lookupEntry, hj, ih]

theorem lookupEntry_removeEntry_self {β : Type} (l : List (String × β))
    (key : String) : lookupEntry (removeEntry l key) key = none := by
  induction l with
  | nil => simp [removeEntry, lookupEntry]
  | cons p rest ih =>
      obtain ⟨k, w⟩ := p
      by_cases h : k = key
      · simpa [removeEntry, h] using ih
      · simpa [removeEntry, lookupEntry, h] using ih

theorem lookupEntry_setEntry_isSome {β : Type} (l : List (String × β))
    (key j : String) (v : β)
    (h : (lookupEntry (setEntry l key v) j).isSome) :
    j = key ∨ (lookupEntry l j).isSome := by
  by_cases hj : j = key
  · exact Or.inl hj
  · rw [lookupEntry_setEntry_ne l key j v hj] at h
    exact Or.inr h

theorem historyCountFor_append (h : List (String × Int)) (e : String × Int)
    (id : String) :
    (( h ++ [e]).filter (fun x => x.1 = id)).length =
      (h.filter (fun x => x.1 = id)).length + (if e.1 = id then 1 else 0) := by
  by_cases hc : e.1 = id <;> simp [List.filter_append, hc]

/-! ## Batch-upsert structure lemmas -/

theorem foldl_setEntry_active (now : Nat) (id : String) :
    ∀ (l : List AptRecord) (acc : List (String × StoredApt)),
      (id ∈ l.map (fun a => a.id) ∨
        ∃ s, lookupEntry acc id = some s ∧ s.isActive = true) →
      ∃ s, lookupEntry
          (l.foldl (fun acc apt => setEntry acc apt.id
            { title := apt.title, price := apt.price, lastSeen := now,
              isActive := true }) acc) id = some s ∧ s.isActive = true := by
  intro l
  induction l with
  | nil =>
      intro acc h
      rcases h with h | h
      · simp at h
      · simpa using h
  | cons a rest ih =>
      intro acc h
      simp only [List.foldl_cons]
      apply ih
      by_cases hid : id = a.id
      · subst hid
        exact Or.inr ⟨_, lookupEntry_setEntry_self _ _ _, rfl⟩
      · rcases h with h | ⟨s, hs, hact⟩
        · simp only [List.map_cons, List.mem_cons] at h
          rcases h with h | h
          · exact absurd h hid
          · exact Or.inl h
        · refine Or.inr ⟨s, ?_, hact⟩
          rw [lookupEntry_setEntry_ne _ _ _ _ hid]
          exact hs

theorem applyChunk_active (db : Database) (now : Nat) (batch : List AptRecord)
    (id : String)
    (h : id ∈ batch.map (fun a => a.id) ∨
      ∃ s, lookupEntry db.apartments id = some s ∧ s.isActive = true) :
    ∃ s, lookupEntry (applyChunk db now batch).apartments id = some s ∧
      s.isActive = true :=
  foldl_setEntry_active now id batch db.apartments h

theorem chunksFoldl_active (now : Nat) (id : String) :
    ∀ (chunks : List (List AptRecord)) (db : Database),
      ((∃ batch ∈ chunks, id ∈ batch.map (fun a => a.id)) ∨
        ∃ s, lookupEntry db.apartments id = some s ∧ s.isActive = true) →
      ∃ s, lookupEntry
        (chunks.foldl (fun acc batch => applyChunk acc now batch) db).apartments
          id = some s ∧ s.isActive = true := by
  intro chunks
  induction chunks with
  | nil =>
      intro db h
      rcases h with ⟨batch, hb, _⟩ | h
      · simp at hb
      · simpa using h
  | cons c rest ih =>
      intro db h
      simp only [List.foldl_cons]
      rcases h with ⟨batch, hb, hid⟩ | h
      · rcases List.mem_cons.mp hb with hb | hb
        · subst hb
          exact ih _ (Or.inr (applyChunk_active db now batch id (Or.inl hid)))
        · exact ih _ (Or.inl ⟨batch, hb, hid⟩)
      · exact ih _ (Or.inr (applyChunk_active db now c id (Or.inr h)))

theorem chunkList_flatten : ∀ (l : List AptRecord), (chunkList l).flatten = l := by
  intro l
  induction l using chunkList.induct with
  | case1 => simp [chunkList]
  | case2 a rest ih =>
      rw [chunkList]
      simp only [List.flatten_cons, ih]
      simp [List.take_append_drop]

theorem mem_uniqueIds (l : List AptRecord) (a : AptRecord) (h : a ∈ l) :
    a.id ∈ uniqueIds l := by
  induction l with
  | nil => cases h
  | cons x rest ih =>
      rcases List.mem_cons.mp h with h | h
      · subst h
        exact List.mem_cons_self _ _
      · by_cases hid : a.id = x.id
        · rw [uniqueIds, hid]
          exact List.mem_cons_self _ _
        · exact List.mem_cons_of_mem _
            (List.mem_filter.mpr ⟨ih h, by simpa using hid⟩)

theorem lastRecordFor_id : ∀ (l : List AptRecord) (key : String)
    (r : AptRecord), lastRecordFor l key = some r → r.id = key := by
  intro l
  induction l with
  | nil => intro key r h; cases h
  | cons a rest ih =>
      intro key r h
      rw [lastRecordFor] at h
      cases hrest : lastRecordFor rest key with
      | none =>
          rw [hrest] at h
          by_cases ha : a.id = key
          · rw [if_pos ha] at h
            cases h
            exact ha
          · rw [if_neg ha] at h
            cases h
      | some r₂ =>
          rw [hrest] at h
          cases h
          exact ih key _ hrest

theorem lastRecordFor_isSome_of_mem :
    ∀ (l : List AptRecord) (a : AptRecord), a ∈ l →
      (lastRecordFor l a.id).isSome = true := by
  intro l
  induction l with
  | nil => intro a h; cases h
  | cons x rest ih =>
      intro a h
      rw [lastRecordFor]
      cases hrest : lastRecordFor rest a.id with
      | none =>
          rcases List.mem_cons.mp h with h | h
          · subst h
            simp
          · have := ih a h
            rw [hrest] at this
            cases this
      | some r₂ => simp

theorem mem_dedupById_ids (l : List AptRecord) (a : AptRecord) (h : a ∈ l) :
    ∃ r ∈ dedupById l, r.id = a.id := by
  have h1 := mem_uniqueIds l a h
  have h2 := lastRecordFor_isSome_of_mem l a h
  obtain ⟨r, hr⟩ := Option.isSome_iff_exists.mp h2
  exact ⟨r, List.mem_filterMap.mpr ⟨a.id, h1, hr⟩, lastRecordFor_id l a.id r hr⟩

/-! ## C3 -/

/-- C3: when the number of listings observed in a run is below
`MIN_RESULTS_FOR_REMOVAL`, the reconciliation step skips deactivation
entirely — the removal set is empty and every stored listing (in particular
its `isActive` flag) is untouched. -/
theorem deactivation_floor (db : Database) (apartments : List AptRecord)
    (h : apartments.length < MIN_RESULTS_FOR_REMOVAL) :
    (reconcileRemovals db apartments).2 = [] ∧
      (reconcileRemovals db apartments).1 = db := by
  unfold reconcileRemovals
  rw [if_neg (not_le.mpr h)]
  exact ⟨rfl, rfl⟩

/-- Witness for C3: a run that observed one listing (below the floor of
1000) removes nothing and leaves a store with an active and an inactive
listing untouched. -/
theorem deactivation_floor_witness :
    [aptA].length < MIN_RESULTS_FOR_REMOVAL ∧
      (reconcileRemovals dbKnowsA [aptA]).2 = [] ∧
      (reconcileRemovals dbKnowsA [aptA]).1 = dbKnowsA :=
  ⟨by decide, (deactivation_floor dbKnowsA [aptA] (by decide)).1,
    (deactivation_floor dbKnowsA [aptA] (by decide)).2⟩

/-! ## C10 -/

/-- C10: both write paths set `is_active = 1` unconditionally.  After
`upsert_apartment`, the stored row for the record's id is exactly the fresh
attributes with `isActive = true`; after `batch_upsert_apartments`, every
record of the input batch has an active stored row — so a listing that
`mark_apartments_inactive` had flipped to inactive is reactivated the next
time it is observed. -/
theorem upsert_reactivates (db : Database) (apt : AptRecord) (now : Nat) :
    (lookupEntry (upsert_apartment db apt now).1.apartments apt.id =
      some { title := apt.title, price := apt.price, lastSeen := now, isActive := true }) ∧
    (∀ (apartments : List AptRecord), apt ∈ apartments →
      ((lookupEntry (batch_upsert_apartments db apartments now).1.apartments
          apt.id).map StoredApt.isActive) = some true) := by
  constructor
  · simpa [upsert_apartment] using
      lookupEntry_setEntry_self db.apartments apt.id _
  · intro apartments hmem
    obtain ⟨r, hrmem, hrid⟩ := mem_dedupById_ids apartments apt hmem
    have hflat : r ∈ (chunkList (dedupById apartments)).flatten := by
      rw [chunkList_flatten]
      exact hrmem
    obtain ⟨batch, hbatch, hrb⟩ := List.mem_flatten.mp hflat
    have hid : apt.id ∈ batch.map (fun a => a.id) := by
      rw [← hrid]
      exact List.mem_map_of_mem _ hrb
    obtain ⟨s, hs, hact⟩ := chunksFoldl_active now apt.id
      (chunkList (dedupById apartments)) db (Or.inl ⟨batch, hbatch, hid⟩)
    have : lookupEntry (batch_upsert_apartments db apartments now).1.apartments
        apt.id = some s := hs
    rw [this]
    simp [hact]

/-- Witness for C10: `aptA`, previously stored inactive, is reactivated both
by a single upsert and by a bulk upsert that contains it. -/
theorem upsert_reactivates_witness :
    aptA ∈ [aptA, aptB] ∧
    lookupEntry (upsert_apartment inactiveDb aptA 5).1.apartments aptA.id =
      some { title := aptA.title, price := aptA.price, lastSeen := 5, isActive := true } ∧
    ((lookupEntry (batch_upsert_apartments inactiveDb [aptA, aptB] 5).1.apartments
        aptA.id).map StoredApt.isActive) = some true :=
  ⟨by decide, (upsert_reactivates inactiveDb aptA 5).1,
    (upsert_reactivates inactiveDb aptA 5).2 [aptA, aptB] (by decide)⟩

/-! ## C4 -/

/-- C4 (amended): for a record that is not yet stored and carries a truthy
(non-null, non-zero) price, upserting it twice with identical data appends
exactly one price-history entry — during the first call — and refreshes
`lastSeen` on both calls. -/
theorem idempotent_upsert (db : Database) (r : AptRecord) (t₁ t₂ : Nat)
    (hnew : lookupEntry db.apartments r.id = none)
    (htruthy : priceTruthy r.price = true) :
    historyCountFor (upsert_apartment db r t₁).1 r.id =
      historyCountFor db r.id + 1 ∧
    historyCountFor (upsert_apartment (upsert_apartment db r t₁).1 r t₂).1 r.id
      = historyCountFor (upsert_apartment db r t₁).1 r.id ∧
    (lookupEntry (upsert_apartment db r t₁).1.apartments r.id).map
      StoredApt.lastSeen = some t₁ ∧
    (lookupEntry (upsert_apartment (upsert_apartment db r t₁).1 r t₂).1.apartments
      r.id).map StoredApt.lastSeen = some t₂ := by
  have h1 : (upsert_apartment db r t₁).1 =
      { apartments := setEntry db.apartments r.id
          { title := r.title, price := r.price, lastSeen := t₁, isActive := true },
        priceHistory := db.priceHistory ++ [(r.id, r.price.getD 0)] } := by
    simp [upsert_apartment, hnew, htruthy]
  have h2 : lookupEntry (upsert_apartment db r t₁).1.apartments r.id =
      some { title := r.title, price := r.price, lastSeen := t₁, isActive := true } := by
    rw [h1]
    exact lookupEntry_setEntry_self _ _ _
  have h3 : (upsert_apartment (upsert_apartment db r t₁).1 r t₂).1 =
      { apartments := setEntry (upsert_apartment db r t₁).1.apartments r.id
          { title := r.title, price := r.price, lastSeen := t₂, isActive := true },
        priceHistory := (upsert_apartment db r t₁).1.priceHistory } := by
    rw [h1]
    simp [upsert_apartment, lookupEntry_setEntry_self]
  refine ⟨?_, ?_, ?_, ?_⟩
  · rw [h1]
    simp [historyCountFor, List.filter_append]
  · rw [h3]
    rfl
  · rw [h2]
    rfl
  · rw [h3]
    rw [lookupEntry_setEntry_self]
    rfl

/-- Counterexample to C4 as stated: upserting a record whose price is `None`
twice with identical data appends zero price-history entries, not one —
`upsert_apartment` skips the append whenever the record's price is falsy,
even on creation. -/
theorem idempotent_upsert_counterexample :
    historyCountFor
      (upsert_apartment (upsert_apartment emptyDatabase aptNoPrice 0).1
        aptNoPrice 1).1 "n" ≠ 1 := by
  decide

/-- Witness for C4: a fresh record with price 100, upserted at times 3 and 7. -/
theorem idempotent_upsert_witness :
    lookupEntry emptyDatabase.apartments aptA.id = none ∧
    priceTruthy aptA.price = true ∧
    historyCountFor (upsert_apartment emptyDatabase aptA 3).1 aptA.id =
      historyCountFor emptyDatabase aptA.id + 1 ∧
    historyCountFor
      (upsert_apartment (upsert_apartment emptyDatabase aptA 3).1 aptA 7).1
      aptA.id = historyCountFor (upsert_apartment emptyDatabase aptA 3).1 aptA.id ∧
    (lookupEntry
      (upsert_apartment (upsert_apartment emptyDatabase aptA 3).1 aptA 7).1.apartments
      aptA.id).map StoredApt.lastSeen = some 7 :=
  ⟨by decide, by decide,
    (idempotent_upsert emptyDatabase aptA 3 7 (by decide) (by decide)).1,
    (idempotent_upsert emptyDatabase aptA 3 7 (by decide) (by decide)).2.1,
    (idempotent_upsert emptyDatabase aptA 3 7 (by decide) (by decide)).2.2.2⟩

/-! ## C1 -/

/-- Once a listing is stored, each further truthy-price upsert on its id
adds a history row exactly when the price differs from the stored one. -/
theorem runUpserts_history_existing (i : String) :
    ∀ (rs : List (AptRecord × Nat)) (db : Database) (e : StoredApt),
      lookupEntry db.apartments i = some e →
      (∀ r ∈ rs, (r : AptRecord × Nat).1.id = i ∧ priceTruthy r.1.price = true) →
      historyCountFor (runUpserts db rs) i =
        historyCountFor db i + countChanges e.price (rs.map (fun r => r.1.price)) := by
  intro rs
  induction rs with
  | nil =>
      intro db e he hall
      simp [runUpserts, countChanges]
  | cons rt rest ih =>
      intro db e he hall
      obtain ⟨r, t⟩ := rt
      obtain ⟨hid, htr⟩ := hall (r, t) (List.mem_cons_self _ _)
      have he' : lookupEntry db.apartments r.id = some e := by
        rw [hid]
        exact he
      have hlook : lookupEntry (upsert_apartment db r t).1.apartments i =
          some { title := r.title, price := r.price, lastSeen := t, isActive := true } := by
        simp only [upsert_apartment]
        rw [← hid]
        exact lookupEntry_setEntry_self _ _ _
      have hhist : historyCountFor (upsert_apartment db r t).1 i =
          historyCountFor db i + (if r.price ≠ e.price then 1 else 0) := by
        by_cases hpe : e.price = r.price
        · simp [upsert_apartment, historyCountFor, he', hpe]
        · have : r.price ≠ e.price := fun hc => hpe hc.symm
          simp [upsert_apartment, historyCountFor, he', hpe, this,
            List.filter_append, htr, hid]
          rw [show r.id = i from hid]
          simp
      have hrest : ∀ x ∈ rest, (x : AptRecord × Nat).1.id = i ∧
          priceTruthy x.1.price = true :=
        fun x hx => hall x (List.mem_cons_of_mem _ hx)
      calc historyCountFor (runUpserts db ((r, t) :: rest)) i
          = historyCountFor (runUpserts (upsert_apartment db r t).1 rest) i := rfl
        _ = historyCountFor (upsert_apartment db r t).1 i +
              countChanges r.price (rest.map (fun x => x.1.price)) := by
            exact ih (upsert_apartment db r t).1 _ hlook hrest
        _ = historyCountFor db i + ((if r.price ≠ e.price then 1 else 0) +
              countChanges r.price (rest.map (fun x => x.1.price))) := by
            rw [hhist, Nat.add_assoc]
        _ = historyCountFor db i +
              countChanges e.price (((r, t) :: rest).map (fun x => x.1.price)) := by
            simp [countChanges]

/-- A one-record bulk upsert coincides with a single upsert: the prefetched
old-price comparison of `batch_upsert_apartments` appends a history row in
exactly the cases `upsert_apartment` does, and the written row is the same. -/
theorem batch_single_eq_upsert (db : Database) (r : AptRecord) (now : Nat) :
    batch_upsert_apartments db [r] now = ((upsert_apartment db r now).1, 1) := by
  have hded : dedupById [r] = [r] := by
    simp [dedupById, uniqueIds, lastRecordFor]
  have hchunk : chunkList [r] = [[r]] := by
    rw [chunkList]
    simp [chunkList]
  simp only [batch_upsert_apartments, hded, hchunk, List.foldl_cons,
    List.foldl_nil, List.length_cons, List.length_nil]
  unfold applyChunk upsert_apartment batchOldPrice
  cases he : lookupEntry db.apartments r.id with
  | none =>
      cases hp : r.price with
      | none => simp [he, hp, priceTruthy]
      | some p =>
          by_cases hp0 : p = 0
          · simp [he, hp, hp0, priceTruthy]
          · simp [he, hp, hp0, priceTruthy]
  | some e =>
      cases hp : r.price with
      | none => simp [he, hp, priceTruthy]
      | some p =>
          by_cases hp0 : p = 0
          · simp [he, hp, hp0, priceTruthy]
          · by_cases hep : e.price = some p
            · simp [he, hp, hp0, hep, priceTruthy]
            · simp [he, hp, hp0, hep, priceTruthy]

/-- C1 (amended): for a not-yet-stored listing id and any sequence of
upserts on it, each carrying a truthy (non-null, non-zero) price, the number
of price-history rows for the id grows by exactly 1 (creation) plus the
number of upserts whose price differs from the immediately preceding stored
price; a one-record bulk upsert behaves identically to a single upsert. -/
theorem price_history_invariant (db : Database) (i : String)
    (rs : List (AptRecord × Nat))
    (hnew : lookupEntry db.apartments i = none)
    (hall : ∀ r ∈ rs, (r : AptRecord × Nat).1.id = i ∧
      priceTruthy r.1.price = true) :
    (historyCountFor (runUpserts db rs) i =
      historyCountFor db i + specHistoryCount (rs.map (fun r => r.1.price))) ∧
    (∀ (db₂ : Database) (r₂ : AptRecord) (t₂ : Nat),
      batch_upsert_apartments db₂ [r₂] t₂ = ((upsert_apartment db₂ r₂ t₂).1, 1)) := by
  refine ⟨?_, fun db₂ r₂ t₂ => batch_single_eq_upsert db₂ r₂ t₂⟩
  cases rs with
  | nil => simp [runUpserts, specHistoryCount]
  | cons rt rest =>
      obtain ⟨r, t⟩ := rt
      obtain ⟨hid, htr⟩ := hall (r, t) (List.mem_cons_self _ _)
      have hnew' : lookupEntry db.apartments r.id = none := by
        rw [hid]
        exact hnew
      have hlook : lookupEntry (upsert_apartment db r t).1.apartments i =
          some { title := r.title, price := r.price, lastSeen := t, isActive := true } := by
        simp only [upsert_apartment]
        rw [← hid]
        exact lookupEntry_setEntry_self _ _ _
      have hhist : historyCountFor (upsert_apartment db r t).1 i =
          historyCountFor db i + 1 := by
        simp [upsert_apartment, historyCountFor, hnew', htr,
          List.filter_append, hid]
        rw [show r.id = i from hid]
        simp
      have hrest : ∀ x ∈ rest, (x : AptRecord × Nat).1.id = i ∧
          priceTruthy x.1.price = true :=
        fun x hx => hall x (List.mem_cons_of_mem _ hx)
      calc historyCountFor (runUpserts db ((r, t) :: rest)) i
          = historyCountFor (runUpserts (upsert_apartment db r t).1 rest) i := rfl
        _ = historyCountFor (upsert_apartment db r t).1 i +
              countChanges r.price (rest.map (fun x => x.1.price)) :=
            runUpserts_history_existing i rest (upsert_apartment db r t).1 _
              hlook hrest
        _ = historyCountFor db i + (1 +
              countChanges r.price (rest.map (fun x => x.1.price))) := by
            rw [hhist, Nat.add_assoc]
        _ = historyCountFor db i +
              specHistoryCount (((r, t) :: rest).map (fun x => x.1.price)) := by
            simp [specHistoryCount]

/-- Counterexample to C1 as stated: creating a listing through an upsert
whose price is `None` appends no price-history row at all, so the count is
0 where the claim predicts `1 + 0`. -/
theorem price_history_invariant_counterexample :
    historyCountFor (runUpserts emptyDatabase [(aptNoPrice, 0)]) "n" ≠
      historyCountFor emptyDatabase "n" + specHistoryCount [aptNoPrice.price] := by
  decide

/-- Witness for C1: three upserts on listing "a" with prices 100, 100, 150
produce 2 history rows (creation plus one change), and a one-record bulk
upsert matches the single upsert. -/
theorem price_history_invariant_witness :
    lookupEntry emptyDatabase.apartments "a" = none ∧
    historyCountFor (runUpserts emptyDatabase [(aptA, 0), (aptA, 1), (aptA150, 2)]) "a" =
      historyCountFor emptyDatabase "a" +
        specHistoryCount [aptA.price, aptA.price, aptA150.price] ∧
    batch_upsert_apartments dbKnowsA [aptB] 9 = ((upsert_apartment dbKnowsA aptB 9).1, 1) :=
  ⟨by decide,
    (price_history_invariant emptyDatabase "a" [(aptA, 0), (aptA, 1), (aptA150, 2)]
      (by decide) (by decide)).1,
    (price_history_invariant emptyDatabase "a" [(aptA, 0), (aptA, 1), (aptA150, 2)]
      (by decide) (by decide)).2 dbKnowsA aptB 9⟩

/-! ## C5 -/

/-- C5: `log_event` recomputes the multiplier only on `rate_limit`/`block`
outcomes; with fewer than 5 samples in the trailing-24h window (including
the just-logged one) it leaves the multiplier alone; with at least 5 samples
it applies exactly the spec's update rule to the window's problem and
success rates. -/
theorem pacing_update_rule (st : DelayState) (t : EventType) (now : Int) :
    ((t = .rate_limit ∨ t = .block) →
      (totalEvents (st.logs ++ [⟨now, t⟩]) now ≥ 5 →
        (log_event st t now).multiplier =
          specMultiplierUpdate st.multiplier
            (((countEvents (st.logs ++ [⟨now, t⟩]) now .block : ℚ) +
                (countEvents (st.logs ++ [⟨now, t⟩]) now .rate_limit : ℚ)) /
              (totalEvents (st.logs ++ [⟨now, t⟩]) now : ℚ))
            ((countEvents (st.logs ++ [⟨now, t⟩]) now .success : ℚ) /
              (totalEvents (st.logs ++ [⟨now, t⟩]) now : ℚ))) ∧
      (totalEvents (st.logs ++ [⟨now, t⟩]) now < 5 →
        (log_event st t now).multiplier = st.multiplier)) ∧
    (¬ (t = .rate_limit ∨ t = .block) →
      (log_event st t now).multiplier = st.multiplier) := by
  constructor
  · intro ht
    constructor
    · intro htotal
      rw [log_event, if_pos ht]
      rw [analyze_and_adapt]
      rw [if_neg (not_lt.mpr htotal)]
      rfl
    · intro htotal
      rw [log_event, if_pos ht]
      rw [analyze_and_adapt]
      rw [if_pos htotal]
  · intro ht
    rw [log_event, if_neg ht]

/-- Witness for C5: four prior successes plus a freshly logged rate-limit
event give a 5-sample window, and the multiplier is updated by the spec
rule. -/
theorem pacing_update_rule_witness :
    (EventType.rate_limit = EventType.rate_limit ∨
      EventType.rate_limit = EventType.block) ∧
    totalEvents (fourSuccessState.logs ++ [⟨0, .rate_limit⟩]) 0 ≥ 5 ∧
    (log_event fourSuccessState .rate_limit 0).multiplier =
      specMultiplierUpdate fourSuccessState.multiplier
        (((countEvents (fourSuccessState.logs ++ [⟨0, .rate_limit⟩]) 0 .block : ℚ) +
            (countEvents (fourSuccessState.logs ++ [⟨0, .rate_limit⟩]) 0 .rate_limit : ℚ)) /
          (totalEvents (fourSuccessState.logs ++ [⟨0, .rate_limit⟩]) 0 : ℚ))
        ((countEvents (fourSuccessState.logs ++ [⟨0, .rate_limit⟩]) 0 .success : ℚ) /
          (totalEvents (fourSuccessState.logs ++ [⟨0, .rate_limit⟩]) 0 : ℚ)) :=
  ⟨Or.inl rfl, by decide,
    ((pacing_update_rule fourSuccessState .rate_limit 0).1 (Or.inl rfl)).1 (by decide)⟩

/-! ## C6 -/

/-- One `log_event` call keeps the multiplier inside `[1/2, 5]`. -/
theorem log_event_bounds (st : DelayState) (t : EventType) (now : Int)
    (hlo : 1/2 ≤ st.multiplier) (hhi : st.multiplier ≤ 5) :
    1/2 ≤ (log_event st t now).multiplier ∧
      (log_event st t now).multiplier ≤ 5 := by
  rw [log_event]
  by_cases ht : t = .rate_limit ∨ t = .block
  · rw [if_pos ht, analyze_and_adapt]
    by_cases htot : totalEvents (st.logs ++ [⟨now, t⟩]) now < 5
    · rw [if_pos htot]
      exact ⟨hlo, hhi⟩
    · rw [if_neg htot]
      simp only
      split_ifs with h1 h2 h3
      · exact ⟨le_min (by norm_num) (by linarith), min_le_left _ _⟩
      · exact ⟨le_min (by norm_num) (by linarith),
          le_trans (min_le_left _ _) (by norm_num)⟩
      · exact ⟨le_max_left _ _, max_le (by norm_num) (by linarith)⟩
      · exact ⟨hlo, hhi⟩
  · rw [if_neg ht]
    exact ⟨hlo, hhi⟩

/-- C6: starting from multiplier 1.0, every sequence of outcomes fed through
`log_event` — including arbitrarily long runs of blocks — leaves the
multiplier inside `[0.5, 5.0]`. -/
theorem pacing_bounds (logs : List ScrapeLog) (events : List (EventType × Int)) :
    1/2 ≤ (runEvents { multiplier := 1, logs := logs } events).multiplier ∧
      (runEvents { multiplier := 1, logs := logs } events).multiplier ≤ 5 := by
  have main : ∀ (evs : List (EventType × Int)) (st : DelayState),
      1/2 ≤ st.multiplier → st.multiplier ≤ 5 →
      1/2 ≤ (runEvents st evs).multiplier ∧ (runEvents st evs).multiplier ≤ 5 := by
    intro evs
    induction evs with
    | nil => intro st hlo hhi; exact ⟨hlo, hhi⟩
    | cons e rest ih =>
        intro st hlo hhi
        obtain ⟨t, now⟩ := e
        obtain ⟨hlo', hhi'⟩ := log_event_bounds st t now hlo hhi
        exact ih (log_event st t now) hlo' hhi'
  exact main events { multiplier := 1, logs := logs } (by norm_num) (by norm_num)

/-! ## C7 -/

theorem statsFor_report_failure (st : PMState) (key : String) (now : Int) :
    statsFor (report_failure st key now) key =
      { statsFor st key with
        fail := (statsFor st key).fail + 1
        lastUsed := some now
        consecutiveFails := (statsFor st key).consecutiveFails + 1 } := by
  simp [report_failure, statsFor, lookupEntry_setEntry_self]

theorem iterFailures_cooldown (key : String) (now : Int) :
    ∀ (k : Nat) (st : PMState),
      lookupEntry (iterFailures key now (k + 1) st).cooldown key =
        some (now + ((min (5 * ((statsFor st key).consecutiveFails + (k + 1))) 60 : Nat) : Int)) := by
  intro k
  induction k with
  | zero =>
      intro st
      show lookupEntry (report_failure st key now).cooldown key = _
      simp [report_failure, lookupEntry_setEntry_self]
  | succ k ih =>
      intro st
      show lookupEntry (iterFailures key now (k + 1) (report_failure st key now)).cooldown key = _
      rw [ih (report_failure st key now), statsFor_report_failure]
      have : (statsFor st key).consecutiveFails + 1 + (k + 1) =
          (statsFor st key).consecutiveFails + (k + 1 + 1) := by omega
      rw [this]

/-- C7: `report_failure` increments `consecutive_fails` and then sets the
route's cooldown to `now + min(5 * consecutive_fails, 60)` minutes; after
`k` consecutive failures the cooldown duration is `min(5k', 60)` with `k'`
the accumulated count, which is non-decreasing in `k` and capped at 60; one
`report_success` resets `consecutive_fails` to 0 and removes the route from
the cooldown map. -/
theorem cooldown_backoff (st : PMState) (key : String) (now : Int)
    (responseTime : ℚ) (k : Nat) :
    (lookupEntry (report_failure st key now).cooldown key =
      some (now + ((min (5 * ((statsFor st key).consecutiveFails + 1)) 60 : Nat) : Int))) ∧
    (lookupEntry (iterFailures key now (k + 1) st).cooldown key =
      some (now + ((min (5 * ((statsFor st key).consecutiveFails + (k + 1))) 60 : Nat) : Int))) ∧
    (min (5 * ((statsFor st key).consecutiveFails + (k + 1))) 60 ≤
      min (5 * ((statsFor st key).consecutiveFails + (k + 2))) 60 ∧
      min (5 * ((statsFor st key).consecutiveFails + (k + 1))) 60 ≤ 60) ∧
    ((statsFor (report_success st key now responseTime) key).consecutiveFails = 0 ∧
      lookupEntry (report_success st key now responseTime).cooldown key = none) := by
  refine ⟨?_, iterFailures_cooldown key now k st, ⟨by omega, by omega⟩, ?_, ?_⟩
  · simp [report_failure, lookupEntry_setEntry_self]
  · simp [report_success, statsFor, lookupEntry_setEntry_self]
  · simp [report_success, lookupEntry_removeEntry_self]

/-! ## C8 -/

/-- Whenever the round-robin scan returns a route (without falling back to
the random draw), that route is absent from the cooldown map it returns. -/
theorem nextProxyLoop_some_not_cooled (proxies : List String)
    (stats : List (String × ProxyStats)) (now : Int) :
    ∀ (n idx : Nat) (cd : List (String × Int)) (p : String) (idx₂ : Nat)
      (cd₂ : List (String × Int)),
      nextProxyLoop proxies stats now idx n cd = (some p, idx₂, cd₂) →
      lookupEntry cd₂ p = none := by
  intro n
  induction n with
  | zero =>
      intro idx cd p idx₂ cd₂ h
      simp [nextProxyLoop] at h
  | succ n ih =>
      intro idx cd p idx₂ cd₂ h
      rw [nextProxyLoop] at h
      by_cases h1 : (lookupEntry cd (proxies.getD idx "")).isSome
      · rw [if_pos h1] at h
        exact ih _ _ _ _ _ h
      · rw [if_neg h1] at h
        by_cases h2 : ((lookupEntry stats (proxies.getD idx "")).getD
            defaultProxyStats).consecutiveFails ≥ 5
        · rw [if_pos h2] at h
          exact ih _ _ _ _ _ h
        · rw [if_neg h2] at h
          cases h
          exact Option.not_isSome_iff_eq_none.mp h1

/-- If some visited route is neither in the (original) cooldown map nor at
5+ consecutive fails, the round-robin scan returns a route rather than
exhausting its attempts, provided the evolving cooldown map only ever adds
routes with 5+ consecutive fails. -/
theorem nextProxyLoop_finds (proxies : List String)
    (stats : List (String × ProxyStats)) (now : Int)
    (cd₀ : List (String × Int)) :
    ∀ (n idx : Nat) (cd : List (String × Int)),
      (∀ key, (lookupEntry cd key).isSome = true →
        (lookupEntry cd₀ key).isSome = true ∨
          5 ≤ ((lookupEntry stats key).getD defaultProxyStats).consecutiveFails) →
      (∃ j, j < n ∧
        lookupEntry cd₀ (proxies.getD ((idx + j) % proxies.length) "") = none ∧
        ((lookupEntry stats (proxies.getD ((idx + j) % proxies.length) "")).getD
          defaultProxyStats).consecutiveFails < 5) →
      idx < proxies.length →
      ∃ p idx₂ cd₂,
        nextProxyLoop proxies stats now idx n cd = (some p, idx₂, cd₂) := by
  intro n
  induction n with
  | zero =>
      intro idx cd _ hex _
      obtain ⟨j, hj, _⟩ := hex
      omega
  | succ n ih =>
      intro idx cd hinv hex hidx
      have hlen : 0 < proxies.length := by omega
      rw [nextProxyLoop]
      have hmod : idx % proxies.length = idx := Nat.mod_eq_of_lt hidx
      by_cases h1 : (lookupEntry cd (proxies.getD idx "")).isSome
      · rw [if_pos h1]
        obtain ⟨j, hj, hcd, hcf⟩ := hex
        have hj0 : j ≠ 0 := by
          intro hz
          subst hz
          rw [Nat.add_zero, hmod] at hcd hcf
          rcases hinv _ h1 with hc | hc
          · rw [hcd] at hc
            simp at hc
          · omega
        obtain ⟨j₂, rfl⟩ := Nat.exists_eq_succ_of_ne_zero hj0
        refine ih ((idx + 1) % proxies.length) cd hinv ⟨j₂, by omega, ?_, ?_⟩
          (Nat.mod_lt _ hlen)
        · rw [Nat.mod_add_mod, show idx + 1 + j₂ = idx + (j₂ + 1) by omega]
          exact hcd
        · rw [Nat.mod_add_mod, show idx + 1 + j₂ = idx + (j₂ + 1) by omega]
          exact hcf
      · rw [if_neg h1]
        by_cases h2 : ((lookupEntry stats (proxies.getD idx "")).getD
            defaultProxyStats).consecutiveFails ≥ 5
        · rw [if_pos h2]
          obtain ⟨j, hj, hcd, hcf⟩ := hex
          have hj0 : j ≠ 0 := by
            intro hz
            subst hz
            rw [Nat.add_zero, hmod] at hcf
            omega
          obtain ⟨j₂, rfl⟩ := Nat.exists_eq_succ_of_ne_zero hj0
          refine ih ((idx + 1) % proxies.length)
            (setEntry cd (proxies.getD idx "") (now + 30)) ?_
            ⟨j₂, by omega, ?_, ?_⟩ (Nat.mod_lt _ hlen)
          · intro key hk
            rcases lookupEntry_setEntry_isSome cd (proxies.getD idx "") key
                (now + 30) hk with hkey | hkey
            · right
              rw [hkey]
              exact h2
            · exact hinv key hkey
          · rw [Nat.mod_add_mod, show idx + 1 + j₂ = idx + (j₂ + 1) by omega]
            exact hcd
          · rw [Nat.mod_add_mod, show idx + 1 + j₂ = idx + (j₂ + 1) by omega]
            exact hcf
        · rw [if_neg h2]
          exact ⟨_, _, _, rfl⟩

/-- C8 (amended): whenever at least one configured route is available — not
in cooldown, and for the round-robin selector also below 5 consecutive
fails — neither selector returns a route currently in cooldown.  (When all
routes are disqualified, both selectors deliberately fall back to drawing
among all routes, cooled ones included; see the counterexample.) -/
theorem select_avoids_cooldown (st : PMState) (now : Int) (rnd : Nat) :
    (st.currentIndex < st.proxies.length →
      (∃ q ∈ st.proxies, lookupEntry (cleanCooldown st.cooldown now) q = none ∧
        (statsFor st q).consecutiveFails < 5) →
      ∀ p st₂, get_next_proxy st now rnd = (some p, st₂) →
        inCooldown st₂ now p = false) ∧
    (∀ p st₂, (∃ q ∈ st.proxies,
        lookupEntry (cleanCooldown st.cooldown now) q = none) →
      get_random_proxy st now rnd = (some p, st₂) →
      inCooldown st₂ now p = false) := by
  constructor
  · intro hidx hex p st₂ h
    obtain ⟨q, hqmem, hqcd, hqcf⟩ := hex
    have hne : st.proxies.isEmpty = false := by
      cases hp : st.proxies with
      | nil => rw [hp] at hqmem; cases hqmem
      | cons a l => simp [hp]
    obtain ⟨i, hi, hq⟩ := List.mem_iff_getElem.mp hqmem
    have hlen : 0 < st.proxies.length := by omega
    -- the round-robin scan visits index i at step j
    have hvisit : (st.currentIndex +
        (st.proxies.length + i - st.currentIndex) % st.proxies.length) %
          st.proxies.length = i := by
      rw [Nat.add_mod, Nat.mod_mod_of_dvd, ← Nat.add_mod]
      · rw [Nat.add_sub_cancel' (by omega : st.currentIndex ≤ st.proxies.length + i)]
        rw [Nat.add_mod_left]
        exact Nat.mod_eq_of_lt hi
      · exact dvd_refl _
    have hgetd : st.proxies.getD i "" = q := by
      rw [List.getD_eq_getElem st.proxies "" hi]
      exact hq
    have hfound := nextProxyLoop_finds st.proxies st.stats now
      (cleanCooldown st.cooldown now) st.proxies.length st.currentIndex
      (cleanCooldown st.cooldown now) (fun key hk => Or.inl hk)
      ⟨(st.proxies.length + i - st.currentIndex) % st.proxies.length,
        Nat.mod_lt _ hlen, by rw [hvisit, hgetd]; exact hqcd,
        by rw [hvisit, hgetd]; exact hqcf⟩ hidx
    obtain ⟨p₀, idx₀, cd₀, hloop⟩ := hfound
    have hnc := nextProxyLoop_some_not_cooled st.proxies st.stats now
      st.proxies.length st.currentIndex (cleanCooldown st.cooldown now)
      p₀ idx₀ cd₀ hloop
    have hval : get_next_proxy st now rnd =
        (some p₀, { st with currentIndex := idx₀, cooldown := cd₀ }) := by
      rw [get_next_proxy, if_neg (by rw [hne]; exact Bool.false_ne_true)]
      simp only [hloop]
    rw [hval] at h
    injection h with h1 h2
    injection h1 with h1
    subst h1
    subst h2
    simp [inCooldown, hnc]
  · intro p st₂ hex h
    obtain ⟨q, hqmem, hqcd⟩ := hex
    have hne : st.proxies.isEmpty = false := by
      cases hp : st.proxies with
      | nil => rw [hp] at hqmem; cases hqmem
      | cons a l => simp [hp]
    have hqav : q ∈ st.proxies.filter
        (fun r => (lookupEntry (cleanCooldown st.cooldown now) r).isNone) := by
      refine List.mem_filter.mpr ⟨hqmem, ?_⟩
      rw [hqcd]
      rfl
    have havne : (st.proxies.filter
        (fun r => (lookupEntry (cleanCooldown st.cooldown now) r).isNone)).isEmpty
          = false := by
      cases hp : st.proxies.filter
          (fun r => (lookupEntry (cleanCooldown st.cooldown now) r).isNone) with
      | nil => rw [hp] at hqav; cases hqav
      | cons a l => simp [hp]
    have hlenav : 0 < (st.proxies.filter
        (fun r => (lookupEntry (cleanCooldown st.cooldown now) r).isNone)).length :=
      List.length_pos.mpr (fun hz => by rw [hz] at hqav; cases hqav)
    have hval : get_random_proxy st now rnd =
        (some ((st.proxies.filter
            (fun r => (lookupEntry (cleanCooldown st.cooldown now) r).isNone)).getD
          (rnd % (st.proxies.filter
            (fun r => (lookupEntry (cleanCooldown st.cooldown now) r).isNone)).length)
          ""), { st with cooldown := cleanCooldown st.cooldown now }) := by
      rw [get_random_proxy, if_neg (by rw [hne]; exact Bool.false_ne_true)]
      simp only [havne, Bool.false_eq_true, if_false]
    rw [hval] at h
    injection h with h1 h2
    injection h1 with h1
    subst h1
    subst h2
    have hsel : (st.proxies.filter
        (fun r => (lookupEntry (cleanCooldown st.cooldown now) r).isNone)).getD
          (rnd % (st.proxies.filter
            (fun r => (lookupEntry (cleanCooldown st.cooldown now) r).isNone)).length)
          "" ∈ st.proxies.filter
            (fun r => (lookupEntry (cleanCooldown st.cooldown now) r).isNone) := by
      rw [List.getD_eq_getElem _ "" (Nat.mod_lt _ hlenav)]
      exact List.getElem_mem _
    have hnone := (List.mem_filter.mp hsel).2
    simp only [inCooldown]
    rw [Option.isNone_iff_eq_none.mp hnone]

/-- Counterexample to C8 as stated: with a single route in cooldown until
minute 100, at minute 0 both selectors return that route (the deliberate
"all disqualified" fallback), which is currently in cooldown. -/
theorem select_avoids_cooldown_counterexample :
    (get_next_proxy cooledPool 0 0).1 = some "p1" ∧
    inCooldown (get_next_proxy cooledPool 0 0).2 0 "p1" = true ∧
    (get_random_proxy cooledPool 0 0).1 = some "p1" ∧
    inCooldown (get_random_proxy cooledPool 0 0).2 0 "p1" = true := by
  decide

/-- Witness for C8: with a cooled first route and a healthy second route,
both selectors return "p2", which is not in cooldown. -/
theorem select_avoids_cooldown_witness :
    mixedPool.currentIndex < mixedPool.proxies.length ∧
    inCooldown mixedPool 0 "p2" = false ∧
    inCooldown (get_random_proxy mixedPool 0 0).2 0 "p2" = false :=
  ⟨by decide,
    (select_avoids_cooldown mixedPool 0 3).1 (by decide)
      ⟨"p2", by decide, by decide, by decide⟩ "p2" mixedPool (by decide),
    (select_avoids_cooldown mixedPool 0 0).2 "p2" (get_random_proxy mixedPool 0 0).2
      ⟨"p2", by decide, by decide⟩ (by decide)⟩

/-! ## C2 -/

/-- The inner listing loop observes exactly as many listings as the
flag-level recursion predicts, and agrees on the counter and the stop
flag. -/
theorem scrapeListings_spec (db : Database) :
    ∀ (pg : List (Option AptRecord)) (k : Nat) (acc : List AptRecord),
      (scrapeListings db pg k acc).1.length =
        acc.length + (observeFlags (pageFlags db pg) k).1 ∧
      (scrapeListings db pg k acc).2 = (observeFlags (pageFlags db pg) k).2 := by
  intro pg
  induction pg with
  | nil =>
      intro k acc
      simp [scrapeListings, observeFlags, pageFlags]
  | cons o rest ih =>
      intro k acc
      cases o with
      | none =>
          simpa [scrapeListings, pageFlags] using ih k acc
      | some apt =>
          by_cases hk : (lookupEntry db.apartments apt.id).isSome = true
          · by_cases hth : k + 1 ≥ CONSECUTIVE_KNOWN_THRESHOLD
            · simp [scrapeListings, observeFlags, pageFlags, hk, hth]
            · have h1 := ih (k + 1) (acc ++ [apt])
              simp only [pageFlags, id] at h1 ⊢
              simp only [scrapeListings, observeFlags, List.filterMap_cons,
                id_eq, List.map_cons, hk, if_true, if_neg hth,
                List.length_append, List.length_cons, List.length_nil] at h1 ⊢
              exact ⟨by omega, h1.2⟩
          · have hk' : (lookupEntry db.apartments apt.id).isSome = false := by
              simpa using hk
            have h1 := ih 0 (acc ++ [apt])
            simp only [pageFlags, id] at h1 ⊢
            simp only [scrapeListings, observeFlags, List.filterMap_cons,
              id_eq, List.map_cons, hk', Bool.false_eq_true, if_false,
              List.length_append, List.length_cons, List.length_nil] at h1 ⊢
            exact ⟨by omega, h1.2⟩

/-- Splitting a flag stream: once the left part stops, the right part is
never reached; otherwise the observation counts add with the carried
counter. -/
theorem observeFlags_append :
    ∀ (l₁ l₂ : List Bool) (k : Nat),
      observeFlags (l₁ ++ l₂) k =
        if (observeFlags l₁ k).2.2 then observeFlags l₁ k
        else ((observeFlags l₁ k).1 +
            (observeFlags l₂ (observeFlags l₁ k).2.1).1,
          (observeFlags l₂ (observeFlags l₁ k).2.1).2) := by
  intro l₁
  induction l₁ with
  | nil =>
      intro l₂ k
      simp [observeFlags]
  | cons b rest ih =>
      intro l₂ k
      cases b with
      | true =>
          by_cases hth : k + 1 ≥ CONSECUTIVE_KNOWN_THRESHOLD
          · simp [observeFlags, hth]
          · simp only [List.cons_append, observeFlags, if_true, if_neg hth]
            simp only [List.append_eq]
            rw [ih l₂ (k + 1)]
            by_cases hs : (observeFlags rest (k + 1)).2.2
            · simp [hs]
            · simp [hs, Prod.mk.injEq]
              omega
      | false =>
          simp only [List.cons_append, observeFlags, Bool.false_eq_true,
            if_false]
          simp only [List.append_eq]
          rw [ih l₂ 0]
          by_cases hs : (observeFlags rest 0).2.2
          · simp [hs]
          · simp [hs, Prod.mk.injEq]
            omega

/-- The page driver observes no more listings than the flag-level recursion
over the flattened stream allows: page breaks and the fuel cap only cut the
run shorter. -/
theorem scrape_all_pages_len (db : Database) :
    ∀ (pages : List (List (Option AptRecord))) (fuel k : Nat)
      (acc : List AptRecord),
      (scrape_all_pages db pages fuel k acc).length ≤
        acc.length + (observeFlags ((pages.map (pageFlags db)).flatten) k).1 := by
  intro pages
  induction pages with
  | nil =>
      intro fuel k acc
      cases fuel <;> simp [scrape_all_pages]
  | cons pg rest ih =>
      intro fuel k acc
      cases fuel with
      | zero => simp [scrape_all_pages]
      | succ fuel =>
          rw [scrape_all_pages]
          have hflat : ((pg :: rest).map (pageFlags db)).flatten =
              pageFlags db pg ++ (rest.map (pageFlags db)).flatten := by
            simp
          by_cases hpg : pg.isEmpty
          · rw [if_pos hpg]
            exact Nat.le_add_right _ _
          · rw [if_neg hpg]
            obtain ⟨hlen, hks⟩ := scrapeListings_spec db pg k acc
            rcases hsl : scrapeListings db pg k acc with ⟨acc₂, k₂, stopped⟩
            rw [hsl] at hlen hks
            have hlen' : acc₂.length =
                acc.length + (observeFlags (pageFlags db pg) k).1 := hlen
            have hks₁ : k₂ = (observeFlags (pageFlags db pg) k).2.1 :=
              congrArg Prod.fst hks
            have hks₂ : stopped = (observeFlags (pageFlags db pg) k).2.2 :=
              congrArg Prod.snd hks
            rw [hflat, observeFlags_append]
            cases stopped with
            | true =>
                rw [if_pos hks₂.symm]
                show acc₂.length ≤
                  acc.length + (observeFlags (pageFlags db pg) k).1
                omega
            | false =>
                rw [if_neg (by rw [← hks₂]; simp)]
                have hmain := ih fuel k₂ acc₂
                show (scrape_all_pages db rest fuel k₂ acc₂).length ≤
                  acc.length + ((observeFlags (pageFlags db pg) k).1 +
                    (observeFlags ((rest.map (pageFlags db)).flatten)
                      ((observeFlags (pageFlags db pg) k).2.1)).1)
                rw [← hks₁]
                omega

theorem observeFlags_replicate_false :
    ∀ (n : Nat), observeFlags (List.replicate n false) 0 = (n, 0, false) := by
  intro n
  induction n with
  | zero => simp [observeFlags]
  | succ n ih =>
      rw [List.replicate_succ]
      simp [observeFlags, ih]

theorem observeFlags_replicate_true :
    ∀ (t : Nat), ∀ (k : Nat), k + t = CONSECUTIVE_KNOWN_THRESHOLD → 1 ≤ t →
      observeFlags (List.replicate t true) k =
        (t, CONSECUTIVE_KNOWN_THRESHOLD, true) := by
  intro t
  induction t with
  | zero =>
      intro k _ h1
      omega
  | succ t ih =>
      intro k hk _
      rw [List.replicate_succ]
      cases t with
      | zero =>
          have : k + 1 ≥ CONSECUTIVE_KNOWN_THRESHOLD := by omega
          simp [observeFlags, this]
          omega
      | succ t₂ =>
          have hth : ¬ (k + 1 ≥ CONSECUTIVE_KNOWN_THRESHOLD) := by
            rw [CONSECUTIVE_KNOWN_THRESHOLD] at hk ⊢
            omega
          rw [observeFlags, if_pos rfl, if_neg hth]
          rw [ih (k + 1) (by omega) (by omega)]

/-- C2: the consecutive-known counter is incremented on each already-known
listing and reset to 0 on a not-yet-known one, carrying across page
boundaries (it is threaded, not reset, between pages); and for a source
whose valid-listing stream starts with `N` unknown listings followed by
`CONSECUTIVE_KNOWN_THRESHOLD` known ones, the run observes at most
`N + CONSECUTIVE_KNOWN_THRESHOLD` listings, not the full catalog. -/
theorem smart_stop_bound (db : Database)
    (pages : List (List (Option AptRecord))) (fuel : Nat) (N : Nat)
    (restFlags : List Bool)
    (hflags : (pages.map (pageFlags db)).flatten =
      List.replicate N false ++
        (List.replicate CONSECUTIVE_KNOWN_THRESHOLD true ++ restFlags)) :
    ((scrape_all_pages db pages fuel 0 []).length ≤
      N + CONSECUTIVE_KNOWN_THRESHOLD) ∧
    (∀ (apt : AptRecord) (rest : List (Option AptRecord)) (k : Nat)
        (acc : List AptRecord),
      ((lookupEntry db.apartments apt.id).isSome = true →
        k + 1 < CONSECUTIVE_KNOWN_THRESHOLD →
        scrapeListings db (some apt :: rest) k acc =
          scrapeListings db rest (k + 1) (acc ++ [apt])) ∧
      ((lookupEntry db.apartments apt.id).isSome = false →
        scrapeListings db (some apt :: rest) k acc =
          scrapeListings db rest 0 (acc ++ [apt]))) := by
  constructor
  · have hbound := scrape_all_pages_len db pages fuel 0 []
    rw [hflags] at hbound
    rw [observeFlags_append] at hbound
    rw [observeFlags_replicate_false] at hbound
    simp only at hbound
    rw [observeFlags_append] at hbound
    rw [observeFlags_replicate_true CONSECUTIVE_KNOWN_THRESHOLD 0 (by omega)
      (by rw [CONSECUTIVE_KNOWN_THRESHOLD]; omega)] at hbound
    simpa using hbound
  · intro apt rest k acc
    constructor
    · intro hknown hth
      rw [scrapeListings, hknown, if_pos rfl, if_neg (by omega)]
    · intro hunknown
      rw [scrapeListings, hunknown]
      simp

/-- Witness for C2: against a store that knows listing "a", a source with
one new listing and then 50 known copies of "a" yields at most 51 observed
listings. -/
theorem smart_stop_bound_witness :
    ((wPages.map (pageFlags dbKnowsA)).flatten =
      List.replicate 1 false ++
        (List.replicate CONSECUTIVE_KNOWN_THRESHOLD true ++ [])) ∧
    (scrape_all_pages dbKnowsA wPages 20 0 []).length ≤
      1 + CONSECUTIVE_KNOWN_THRESHOLD :=
  ⟨by decide, (smart_stop_bound dbKnowsA wPages 20 1 [] (by decide)).1⟩

/-! ## C9 -/

/-- In the per-record fallback loop, every record whose individual save
succeeds ends up stored and active, and already-stored active rows stay
active. -/
theorem fallback_fold_active (f : FaultSpec) (now : Nat) (id : String) :
    ∀ (l : List AptRecord) (acc : Database × Nat),
      ((∃ s, lookupEntry acc.1.apartments id = some s ∧ s.isActive = true) ∨
        (∃ apt ∈ l, apt.id = id ∧ f.singleFails apt.id = false)) →
      ∃ s, lookupEntry
          (l.foldl (fun acc apt =>
            if f.singleFails apt.id then acc
            else ((upsert_apartment acc.1 apt now).1, acc.2 + 1)) acc).1.apartments
          id = some s ∧ s.isActive = true := by
  intro l
  induction l with
  | nil =>
      intro acc h
      rcases h with h | ⟨apt, hmem, _⟩
      · simpa using h
      · cases hmem
  | cons a rest ih =>
      intro acc h
      simp only [List.foldl_cons]
      by_cases hf : f.singleFails a.id = true
      · rw [if_pos hf]
        apply ih
        rcases h with h | ⟨apt, hmem, hid, hfl⟩
        · exact Or.inl h
        · rcases List.mem_cons.mp hmem with hh | hmem
          · subst hh
            rw [hf] at hfl
            cases hfl
          · exact Or.inr ⟨apt, hmem, hid, hfl⟩
      · rw [if_neg hf]
        apply ih
        by_cases hid : a.id = id
        · refine Or.inl ⟨{ title := a.title, price := a.price, lastSeen := now, isActive := true }, ?_, rfl⟩
          simp only [upsert_apartment]
          rw [← hid]
          exact lookupEntry_setEntry_self _ _ _
        · rcases h with ⟨s, hs, hact⟩ | ⟨apt, hmem, hida, hfl⟩
          · refine Or.inl ⟨s, ?_, hact⟩
            simp only [upsert_apartment]
            rw [lookupEntry_setEntry_ne _ _ _ _ (fun hc => hid hc.symm)]
            exact hs
          · rcases List.mem_cons.mp hmem with hh | hmem
            · subst hh
              exact absurd hida hid
            · exact Or.inr ⟨apt, hmem, hida, hfl⟩

/-- C9 (amended): the per-record salvage lives in
`process_apartments_batch`: when its bulk write fails, each record is saved
individually once, so only individually-failing records are lost.  The
backfill loop in `scrape_full_site` has no per-record fallback: a failed
periodic flush keeps the whole buffer for the next attempt (store
untouched), and a failed final flush leaves the store untouched, dropping
the buffer with a logged error. -/
theorem bulk_flush_fallback (f : FaultSpec) (db : Database)
    (apartments : List AptRecord) (now : Nat) (hfail : f.bulkFails = true) :
    (∀ apt ∈ apartments, f.singleFails apt.id = false →
      ((lookupEntry (process_apartments_batch f db apartments now).1.apartments
        apt.id).map StoredApt.isActive) = some true) ∧
    (∀ pending : List AptRecord, pending.length ≥ SAVE_THRESHOLD →
      scrapeFullSitePeriodicSave f db pending now = (db, pending)) ∧
    (∀ pending : List AptRecord,
      scrapeFullSiteFinalSave f db pending now = db) := by
  refine ⟨?_, ?_, ?_⟩
  · intro apt hmem hok
    have hne : apartments.isEmpty = false := by
      cases hp : apartments with
      | nil => rw [hp] at hmem; cases hmem
      | cons x l => simp [hp]
    rw [process_apartments_batch,
      if_neg (by rw [hne]; exact Bool.false_ne_true),
      if_neg (by rw [hfail]; exact not_not_intro rfl)]
    obtain ⟨s, hs, hact⟩ := fallback_fold_active f now apt.id apartments (db, 0)
      (Or.inr ⟨apt, hmem, rfl, hok⟩)
    rw [hs]
    simp [hact]
  · intro pending hp
    rw [scrapeFullSitePeriodicSave, if_pos hp, if_pos hfail]
  · intro pending
    rw [scrapeFullSiteFinalSave]
    by_cases hpe : pending.isEmpty
    · rw [if_pos hpe]
    · rw [if_neg hpe, if_pos hfail]

/-- Counterexample to C9 as stated: the backfill's flush paths have no
per-record fallback.  With a failing bulk write and individual writes that
would all succeed, the backfill's final save leaves the store untouched —
the record is lost — even though the (uncalled) `process_apartments_batch`
helper would have salvaged it record by record. -/
theorem bulk_flush_fallback_counterexample :
    scrapeFullSiteFinalSave allBulkFail emptyDatabase [aptA] 0 = emptyDatabase ∧
    lookupEntry
      (scrapeFullSiteFinalSave allBulkFail emptyDatabase [aptA] 0).apartments
      "a" = none ∧
    (lookupEntry
      (process_apartments_batch allBulkFail emptyDatabase [aptA] 0).1.apartments
      "a").isSome = true := by
  exact ⟨rfl, rfl, rfl⟩

/-- Witness for C9 (amended): with the bulk write failing and individual
writes succeeding, the fallback helper saves record "b" of a two-record
batch, and a failed final flush leaves the store unchanged. -/
theorem bulk_flush_fallback_witness :
    allBulkFail.bulkFails = true ∧
    ((lookupEntry
      (process_apartments_batch allBulkFail emptyDatabase [aptA, aptB] 0).1.apartments
      "b").map StoredApt.isActive = some true) ∧
    scrapeFullSiteFinalSave allBulkFail dbKnowsA [aptB] 0 = dbKnowsA :=
  ⟨rfl,
    (bulk_flush_fallback allBulkFail emptyDatabase [aptA, aptB] 0 rfl).1 aptB
      (by decide) rfl,
    (bulk_flush_fallback allBulkFail dbKnowsA [] 0 rfl).2.2 [aptB]⟩

end Yad2
